import Mathlib

/-
Shallow embedding of the decentralized voting contract
(src/voting-app/src/voting_app.rs, MultiversX smart contract).

Modelling conventions:
- ManagedBuffer / ManagedAddress are byte strings, modelled as List Nat.
- The external keccak256 primitive is an abstract parameter
  (keccak : Bytes → Bytes); every theorem is universally quantified over it.
- u64 values are Nat; `saturating_sub 1` is Nat subtraction, which already
  saturates at 0.
- SetMapper is a duplicate-free list; SetMapper::insert appends at the end
  when the element is absent and is a no-op otherwise (insertSet below).
  Iteration order of a SetMapper is insertion order.
- Each endpoint is a function from the environment (caller, block timestamp)
  and the pre-state to Except String ContractState: `require!` aborts the
  whole transaction with no state change, which Except.error models exactly
  (all guards in the source also precede every storage write).
- SingleValueMapper::get on empty storage of a struct type fails to decode,
  so reads of a nonexistent election are modelled with Option.
-/

abbrev Bytes : Type := List Nat

abbrev Address : Type := List Nat

/-- SetMapper::insert - appends the element iff it is not already present. -/
def insertSet {α : Type} [DecidableEq α] (x : α) (l : List α) : List α :=
  if x ∈ l then l else l ++ [x]

/-- Pointwise update of a storage map at one key. -/
def fupd {α : Type} (f : Nat → α) (k : Nat) (v : α) : Nat → α :=
  fun i => if i = k then v else f i

/-- ElectionInfo struct (voting_app.rs lines 9-18). -/
structure ElectionInfo : Type where
  id : Nat
  name : Bytes
  start_time : Nat
  end_time : Nat
  is_finalized : Bool
  candidates : List Bytes
  merkle_root : Option Bytes
  encryption_public_key : Option Bytes
deriving DecidableEq, Inhabited

/-- The contract storage (voting_app.rs lines 453-491), one field per
storage mapper.  `vote_counts` is the (never written) voteCounts mapper. -/
structure ContractState : Type where
  organizer : Address
  last_election_id : Nat
  election_info : Nat → Option ElectionInfo
  final_candidates : Nat → List Bytes
  final_counts : Nat → List Nat
  candidates : Nat → List Bytes
  eligible_voters : Nat → List Address
  has_voted : Nat → List Address
  encrypted_votes : Nat → List Bytes
  used_nonces : Nat → List Nat
  used_nullifiers : Nat → List Bytes
  vote_counts : Nat → Bytes → Nat

/-- hash_address (lines 286-289): keccak256 of the address bytes. -/
def hash_address (keccak : Bytes → Bytes) (addr : Address) : Bytes :=
  keccak addr

/-- The loop of verify_merkle_proof_leaf (lines 297-306): repeatedly hash
current ++ sibling, current first. -/
def merkleFold (keccak : Bytes → Bytes) : Bytes → List Bytes → Bytes
  | cur, [] => cur
  | cur, sib :: rest => merkleFold keccak (keccak (cur ++ sib)) rest

/-- verify_merkle_proof_leaf (lines 291-309). -/
def verify_merkle_proof_leaf (keccak : Bytes → Bytes) (leaf merkle_root : Bytes)
    (proof : List Bytes) : Bool :=
  merkleFold keccak leaf proof == merkle_root

/-- verifyMerkleProof view (lines 275-284). -/
def verify_merkle_proof (keccak : Bytes → Bytes) (voter : Address)
    (merkle_root : Bytes) (proof : List Bytes) : Bool :=
  verify_merkle_proof_leaf keccak (hash_address keccak voter) merkle_root proof

/-- createElection (lines 38-82).  Returns the new state and the new id. -/
def create_election (caller : Address) (now : Nat) (s : ContractState)
    (name : Bytes) (start_time end_time : Nat)
    (encryption_public_key : Option Bytes) (cands : List Bytes) :
    Except String (ContractState × Nat) :=
  if caller ≠ s.organizer then .error "Only organizer can call this"
  else if name = [] then .error "Election name cannot be empty"
  else if ¬ start_time < end_time then .error "Start time must be before end time"
  else if ¬ start_time ≥ now then .error "Election start time cannot be in the past"
  else
    let election_id := s.last_election_id + 1
    .ok ({ s with
      last_election_id := election_id,
      candidates := fupd s.candidates election_id
        (cands.foldl (fun acc c => insertSet c acc) (s.candidates election_id)),
      election_info := fupd s.election_info election_id (some {
        id := election_id, name := name, start_time := start_time,
        end_time := end_time, is_finalized := false, candidates := cands,
        merkle_root := none, encryption_public_key := encryption_public_key }) },
      election_id)

/-- createElectionWithMerkle (lines 84-123). -/
def create_election_with_merkle (caller : Address) (now : Nat) (s : ContractState)
    (name : Bytes) (start_time end_time : Nat) (merkle_root : Bytes)
    (cands : List Bytes) : Except String (ContractState × Nat) :=
  if caller ≠ s.organizer then .error "Only organizer can call this"
  else if name = [] then .error "Election name cannot be empty"
  else if ¬ start_time < end_time then .error "Start time must be before end time"
  else if ¬ merkle_root.length = 32 then .error "Merkle root must be 32 bytes (keccak256)"
  else if ¬ start_time ≥ now then .error "Election start time cannot be in the past"
  else
    let election_id := s.last_election_id + 1
    .ok ({ s with
      last_election_id := election_id,
      candidates := fupd s.candidates election_id
        (cands.foldl (fun acc c => insertSet c acc) (s.candidates election_id)),
      election_info := fupd s.election_info election_id (some {
        id := election_id, name := name, start_time := start_time,
        end_time := end_time, is_finalized := false, candidates := cands,
        merkle_root := some merkle_root, encryption_public_key := none }) },
      election_id)

/-- setEncryptionPublicKey (lines 125-136). -/
def set_encryption_public_key (caller : Address) (s : ContractState)
    (election_id : Nat) (public_key : Bytes) : Except String ContractState :=
  if caller ≠ s.organizer then .error "Only organizer can call this"
  else if s.election_info election_id = none then .error "Election does not exist"
  else
    let info := (s.election_info election_id).getD default
    if info.is_finalized then .error "Election already finalized"
    else .ok { s with
      election_info := fupd s.election_info election_id
        (some { info with encryption_public_key := some public_key }) }

/-- addVoters (lines 138-149). -/
def add_voters (caller : Address) (s : ContractState) (election_id : Nat)
    (voters : List Address) : Except String ContractState :=
  if caller ≠ s.organizer then .error "Only organizer can call this"
  else if s.election_info election_id = none then .error "Election does not exist"
  else
    let info := (s.election_info election_id).getD default
    if info.is_finalized then .error "Election ended"
    else .ok { s with
      eligible_voters := fupd s.eligible_voters election_id
        (voters.foldl (fun acc v => insertSet v acc) (s.eligible_voters election_id)) }

/-- endElection (lines 151-165): a pure observer, no state change. -/
def end_election (caller : Address) (now : Nat) (s : ContractState)
    (election_id : Nat) : Except String ContractState :=
  if caller ≠ s.organizer then .error "Only organizer can call this"
  else if s.election_info election_id = none then .error "Election does not exist"
  else
    let info := (s.election_info election_id).getD default
    if info.is_finalized then .error "Election already finalized"
    else if ¬ now > info.end_time then .error "Election not yet ended"
    else .ok s

/-- forceEndElection (lines 167-182): rewinds end_time to
now.saturating_sub(1), which is Nat subtraction. -/
def force_end_election (caller : Address) (now : Nat) (s : ContractState)
    (election_id : Nat) : Except String ContractState :=
  if caller ≠ s.organizer then .error "Only organizer can call this"
  else if s.election_info election_id = none then .error "Election does not exist"
  else
    let info := (s.election_info election_id).getD default
    if info.is_finalized then .error "Election already finalized"
    else if ¬ now ≤ info.end_time then .error "Election already ended"
    else .ok { s with
      election_info := fupd s.election_info election_id
        (some { info with end_time := now - 1 }) }

/-- vote (lines 184-206). -/
def vote (caller : Address) (now : Nat) (s : ContractState) (election_id : Nat)
    (encrypted_ballot : Bytes) : Except String ContractState :=
  if s.election_info election_id = none then .error "Election does not exist"
  else
    let info := (s.election_info election_id).getD default
    if now < info.start_time then .error "Election not started"
    else if info.end_time < now then .error "Election ended"
    else if info.is_finalized then .error "Election finalized"
    else if info.encryption_public_key = none then .error "Election encryption keys not set"
    else if caller ∉ s.eligible_voters election_id then .error "Not eligible to vote"
    else if caller ∈ s.has_voted election_id then .error "Already voted"
    else .ok { s with
      encrypted_votes := fupd s.encrypted_votes election_id
        (insertSet encrypted_ballot (s.encrypted_votes election_id)),
      has_voted := fupd s.has_voted election_id
        (insertSet caller (s.has_voted election_id)) }

/-- voteWithMerkle (lines 209-247). -/
def vote_with_merkle (keccak : Bytes → Bytes) (caller : Address) (now : Nat)
    (s : ContractState) (election_id : Nat) (nullifier encrypted_ballot : Bytes)
    (merkle_proof : List Bytes) : Except String ContractState :=
  if s.election_info election_id = none then .error "Election does not exist"
  else
    let info := (s.election_info election_id).getD default
    if now < info.start_time then .error "Election not started"
    else if info.end_time < now then .error "Election ended"
    else if info.is_finalized then .error "Election finalized"
    else if info.encryption_public_key = none then .error "Election encryption keys not set"
    else if info.merkle_root = none then .error "Election not configured for Merkle voting"
    else if nullifier ∈ s.used_nullifiers election_id then .error "Already voted"
    else if verify_merkle_proof_leaf keccak (hash_address keccak caller)
        (info.merkle_root.getD default) merkle_proof then
      .ok { s with
        used_nullifiers := fupd s.used_nullifiers election_id
          (insertSet nullifier (s.used_nullifiers election_id)),
        encrypted_votes := fupd s.encrypted_votes election_id
          (insertSet encrypted_ballot (s.encrypted_votes election_id)) }
    else .error "Invalid Merkle proof - not eligible"

/-- voteEncrypted (lines 249-273).  The caller is the relayer and is not
consulted by any guard. -/
def vote_encrypted (_caller : Address) (now : Nat) (s : ContractState)
    (election_id : Nat) (encrypted_vote : Bytes) (nonce : Nat) :
    Except String ContractState :=
  if s.election_info election_id = none then .error "Election does not exist"
  else
    let info := (s.election_info election_id).getD default
    if now < info.start_time then .error "Election not started"
    else if info.end_time < now then .error "Election ended"
    else if info.is_finalized then .error "Election finalized"
    else if info.encryption_public_key = none then .error "This election does not use encrypted voting"
    else if nonce ∈ s.used_nonces election_id then .error "Nonce already used - replay attack detected"
    else .ok { s with
      used_nonces := fupd s.used_nonces election_id
        (insertSet nonce (s.used_nonces election_id)),
      encrypted_votes := fupd s.encrypted_votes election_id
        (insertSet encrypted_vote (s.encrypted_votes election_id)) }

/-- publishResults (lines 414-446). -/
def publish_results (caller : Address) (now : Nat) (s : ContractState)
    (election_id : Nat) (candidate_counts : List (Bytes × Nat)) :
    Except String ContractState :=
  if caller ≠ s.organizer then .error "Only organizer can call this"
  else if s.election_info election_id = none then .error "Election does not exist"
  else
    let info := (s.election_info election_id).getD default
    if info.is_finalized then .error "Results already published"
    else if ¬ now > info.end_time then .error "Election still ongoing"
    else .ok { s with
      final_candidates := fupd s.final_candidates election_id
        (candidate_counts.map Prod.fst),
      final_counts := fupd s.final_counts election_id
        (candidate_counts.map Prod.snd),
      election_info := fupd s.election_info election_id
        (some { info with is_finalized := true }) }

/-- getElectionResults (lines 328-354).  ManagedVec::get out of bounds
signals an error, modelled as none; reading a missing ElectionInfo also
fails to decode, modelled as none. -/
def get_election_results (s : ContractState) (election_id : Nat) :
    Option (List (Bytes × Nat)) :=
  if s.election_info election_id = none then none
  else
    let info := (s.election_info election_id).getD default
    if info.is_finalized then
      if (s.final_candidates election_id).length ≤ (s.final_counts election_id).length then
        some ((s.final_candidates election_id).zip (s.final_counts election_id))
      else none
    else
      some ((s.candidates election_id).map (fun c => (c, 0)))

/-- One mutating call to the contract, with its endpoint arguments. -/
inductive Op : Type where
  | createElection (name : Bytes) (st en : Nat) (key : Option Bytes) (cands : List Bytes)
  | createElectionWithMerkle (name : Bytes) (st en : Nat) (root : Bytes) (cands : List Bytes)
  | setEncryptionPublicKey (id : Nat) (key : Bytes)
  | addVoters (id : Nat) (voters : List Address)
  | endElection (id : Nat)
  | forceEndElection (id : Nat)
  | vote (id : Nat) (ballot : Bytes)
  | voteWithMerkle (id : Nat) (nullifier ballot : Bytes) (proof : List Bytes)
  | voteEncrypted (id : Nat) (ballot : Bytes) (nonce : Nat)
  | publishResults (id : Nat) (pairs : List (Bytes × Nat))
deriving DecidableEq

/-- Dispatch one call against the state. -/
def stepOp (keccak : Bytes → Bytes) (caller : Address) (now : Nat)
    (s : ContractState) : Op → Except String ContractState
  | .createElection name st en key cands =>
      (create_election caller now s name st en key cands).map Prod.fst
  | .createElectionWithMerkle name st en root cands =>
      (create_election_with_merkle caller now s name st en root cands).map Prod.fst
  | .setEncryptionPublicKey id key => set_encryption_public_key caller s id key
  | .addVoters id voters => add_voters caller s id voters
  | .endElection id => end_election caller now s id
  | .forceEndElection id => force_end_election caller now s id
  | .vote id ballot => vote caller now s id ballot
  | .voteWithMerkle id nul ballot proof => vote_with_merkle keccak caller now s id nul ballot proof
  | .voteEncrypted id ballot nonce => vote_encrypted caller now s id ballot nonce
  | .publishResults id pairs => publish_results caller now s id pairs

/-- Run a sequence of calls, each with its own caller and timestamp; a
failed call reverts (leaves the state unchanged). -/
def runCalls (keccak : Bytes → Bytes) : ContractState → List (Address × Nat × Op) → ContractState
  | s, [] => s
  | s, (c, t, op) :: rest =>
      runCalls keccak
        (match stepOp keccak c t s op with
          | .ok s1 => s1
          | .error _ => s) rest

/-- Reachable-state invariant: ids above the counter hold no record. -/
def freshIds (s : ContractState) : Prop :=
  ∀ j, s.last_election_id < j → s.election_info j = none

/-- Concrete hash instance used only to instantiate universally quantified
theorems at witness points. -/
def kId : Bytes → Bytes := fun b => b

/-- Concrete organizer identity for witness states. -/
def org0 : Address := [9]

/-- Concrete voter identity for witness states. -/
def v1 : Address := [1]

/-- Concrete voter identity for witness states. -/
def v2 : Address := [2]

/-- The state right after init with organizer org0. -/
def emptyState : ContractState where
  organizer := org0
  last_election_id := 0
  election_info := fun _ => none
  final_candidates := fun _ => []
  final_counts := fun _ => []
  candidates := fun _ => []
  eligible_voters := fun _ => []
  has_voted := fun _ => []
  encrypted_votes := fun _ => []
  used_nonces := fun _ => []
  used_nullifiers := fun _ => []
  vote_counts := fun _ _ => 0

/-- An open election (window 10-20) with an encryption key set. -/
def infoKeyed : ElectionInfo where
  id := 1
  name := [110]
  start_time := 10
  end_time := 20
  is_finalized := false
  candidates := [[65], [66]]
  merkle_root := none
  encryption_public_key := some [5]

/-- State with election 1 open, keyed, and voters v1 v2 on the allow list. -/
def sKeyed : ContractState :=
  { emptyState with
    last_election_id := 1,
    election_info := fupd (fun _ => none) 1 (some infoKeyed),
    candidates := fupd (fun _ => []) 1 [[65], [66]],
    eligible_voters := fupd (fun _ => []) 1 [v1, v2] }

/-- State with election 1 open, allow-listed, but with no encryption key. -/
def sNoKey : ContractState :=
  { emptyState with
    last_election_id := 1,
    election_info := fupd (fun _ => none) 1 (some { infoKeyed with encryption_public_key := none }),
    eligible_voters := fupd (fun _ => []) 1 [v1, v2] }

/-- State with election 1 open, keyed, carrying a merkle root that (under
the identity hash) admits v1 with an empty proof. -/
def sMerkle : ContractState :=
  { emptyState with
    last_election_id := 1,
    election_info := fupd (fun _ => none) 1
      (some { infoKeyed with merkle_root := some v1 }) }

/-- State with election 1 running over the window 0-5 (for the timestamp-0
force-end counterexample). -/
def sC4 : ContractState :=
  { emptyState with
    last_election_id := 1,
    election_info := fupd (fun _ => none) 1
      (some { infoKeyed with start_time := 0, end_time := 5 }),
    eligible_voters := fupd (fun _ => []) 1 [v1] }

/-- State with election 1 finalized and a stored final tally. -/
def sFinal : ContractState :=
  { emptyState with
    last_election_id := 1,
    election_info := fupd (fun _ => none) 1
      (some { infoKeyed with is_finalized := true }),
    final_candidates := fupd (fun _ => []) 1 [[65], [66]],
    final_counts := fupd (fun _ => []) 1 [3, 4] }

/-- insertSet keeps the list duplicate-free. -/
theorem insertSet_nodup {α : Type} [DecidableEq α] {l : List α} (x : α)
    (h : l.Nodup) : (insertSet x l).Nodup := by
  unfold insertSet
  split
  · exact h
  · next hx => simpa [List.nodup_append] using ⟨h, fun hmem => hx hmem⟩

/-- The inserted element is a member afterwards. -/
theorem insertSet_mem_self {α : Type} [DecidableEq α] (x : α) (l : List α) :
    x ∈ insertSet x l := by
  unfold insertSet
  split
  · assumption
  · simp

/-- Inserting a present element is a no-op. -/
theorem insertSet_of_mem {α : Type} [DecidableEq α] {x : α} {l : List α}
    (h : x ∈ l) : insertSet x l = l := by
  simp [insertSet, h]

/-- Inserting a fresh element grows the list by one. -/
theorem insertSet_length_of_not_mem {α : Type} [DecidableEq α] {x : α} {l : List α}
    (h : x ∉ l) : (insertSet x l).length = l.length + 1 := by
  simp [insertSet, h]

/-- The verification loop is a left fold of the hash-combine step. -/
theorem merkleFold_eq_foldl (keccak : Bytes → Bytes) (cur : Bytes) (proof : List Bytes) :
    merkleFold keccak cur proof =
      List.foldl (fun c sib => keccak (c ++ sib)) cur proof := by
  induction proof generalizing cur with
  | nil => rfl
  | cons sib rest ih => simp [merkleFold, ih]

/-- Success characterization of vote: guards and resulting state. -/
theorem vote_ok_iff (caller : Address) (now : Nat) (s : ContractState)
    (id : Nat) (b : Bytes) (s1 : ContractState) :
    vote caller now s id b = Except.ok s1 ↔
      ∃ info, s.election_info id = some info ∧
        info.start_time ≤ now ∧ now ≤ info.end_time ∧
        info.is_finalized = false ∧ info.encryption_public_key ≠ none ∧
        caller ∈ s.eligible_voters id ∧ caller ∉ s.has_voted id ∧
        s1 = { s with
          encrypted_votes := fupd s.encrypted_votes id
            (insertSet b (s.encrypted_votes id)),
          has_voted := fupd s.has_voted id
            (insertSet caller (s.has_voted id)) } := by
  unfold vote
  cases hinfo : s.election_info id with
  | none => simp
  | some info =>
    simp only [Option.getD_some, reduceCtorEq, if_false]
    constructor
    · intro h
      split_ifs at h with h1 h2 h3 h4 h5 h6
      simp at h
      exact ⟨info, rfl, by omega, by omega, by simpa using h3, h4, by simpa using h5, h6, h.symm⟩
    · rintro ⟨info', hi, hst, hen, hfin, hkey, helig, hnv, rfl⟩
      obtain rfl : info = info' := by injection hi
      rw [if_neg (by omega), if_neg (by omega), if_neg (by simp [hfin]),
        if_neg hkey, if_neg (by simpa using helig), if_neg hnv]

/-- Success characterization of voteWithMerkle. -/
theorem vote_with_merkle_ok_iff (keccak : Bytes → Bytes) (caller : Address)
    (now : Nat) (s : ContractState) (id : Nat) (nul b : Bytes)
    (proof : List Bytes) (s1 : ContractState) :
    vote_with_merkle keccak caller now s id nul b proof = Except.ok s1 ↔
      ∃ info root, s.election_info id = some info ∧
        info.start_time ≤ now ∧ now ≤ info.end_time ∧
        info.is_finalized = false ∧ info.encryption_public_key ≠ none ∧
        info.merkle_root = some root ∧
        nul ∉ s.used_nullifiers id ∧
        verify_merkle_proof_leaf keccak (hash_address keccak caller) root proof = true ∧
        s1 = { s with
          used_nullifiers := fupd s.used_nullifiers id
            (insertSet nul (s.used_nullifiers id)),
          encrypted_votes := fupd s.encrypted_votes id
            (insertSet b (s.encrypted_votes id)) } := by
  unfold vote_with_merkle
  cases hinfo : s.election_info id with
  | none => simp
  | some info =>
    simp only [Option.getD_some, reduceCtorEq, if_false]
    constructor
    · intro h
      split_ifs at h with h1 h2 h3 h4 h5 h6 h7
      simp at h
      obtain ⟨root, hroot⟩ := Option.ne_none_iff_exists'.mp h5
      rw [hroot, Option.getD_some] at h7
      exact ⟨info, root, rfl, by omega, by omega, by simpa using h3, h4, hroot, h6, h7, h.symm⟩
    · rintro ⟨info', root, hi, hst, hen, hfin, hkey, hroot, hnul, hver, rfl⟩
      obtain rfl : info = info' := by injection hi
      rw [if_neg (by omega), if_neg (by omega), if_neg (by simp [hfin]),
        if_neg hkey, if_neg (by simp [hroot]), if_neg hnul,
        if_pos (by rw [hroot, Option.getD_some]; exact hver)]

/-- Success characterization of voteEncrypted. -/
theorem vote_encrypted_ok_iff (caller : Address) (now : Nat) (s : ContractState)
    (id : Nat) (b : Bytes) (nonce : Nat) (s1 : ContractState) :
    vote_encrypted caller now s id b nonce = Except.ok s1 ↔
      ∃ info, s.election_info id = some info ∧
        info.start_time ≤ now ∧ now ≤ info.end_time ∧
        info.is_finalized = false ∧ info.encryption_public_key ≠ none ∧
        nonce ∉ s.used_nonces id ∧
        s1 = { s with
          used_nonces := fupd s.used_nonces id
            (insertSet nonce (s.used_nonces id)),
          encrypted_votes := fupd s.encrypted_votes id
            (insertSet b (s.encrypted_votes id)) } := by
  unfold vote_encrypted
  cases hinfo : s.election_info id with
  | none => simp
  | some info =>
    simp only [Option.getD_some, reduceCtorEq, if_false]
    constructor
    · intro h
      split_ifs at h with h1 h2 h3 h4 h5
      simp at h
      exact ⟨info, rfl, by omega, by omega, by simpa using h3, h4, h5, h.symm⟩
    · rintro ⟨info', hi, hst, hen, hfin, hkey, hnon, rfl⟩
      obtain rfl : info = info' := by injection hi
      rw [if_neg (by omega), if_neg (by omega), if_neg (by simp [hfin]),
        if_neg hkey, if_neg hnon]

/-- Success characterization of createElection. -/
theorem create_election_ok_iff (caller : Address) (now : Nat) (s : ContractState)
    (name : Bytes) (st en : Nat) (key : Option Bytes) (cands : List Bytes)
    (s1 : ContractState) (eid : Nat) :
    create_election caller now s name st en key cands = Except.ok (s1, eid) ↔
      caller = s.organizer ∧ name ≠ [] ∧ st < en ∧ now ≤ st ∧
      eid = s.last_election_id + 1 ∧
      s1 = { s with
        last_election_id := s.last_election_id + 1,
        candidates := fupd s.candidates (s.last_election_id + 1)
          (cands.foldl (fun acc c => insertSet c acc) (s.candidates (s.last_election_id + 1))),
        election_info := fupd s.election_info (s.last_election_id + 1) (some {
          id := s.last_election_id + 1, name := name, start_time := st,
          end_time := en, is_finalized := false, candidates := cands,
          merkle_root := none, encryption_public_key := key }) } := by
  unfold create_election
  constructor
  · intro h
    split_ifs at h with h1 h2 h3 h4
    simp at h
    exact ⟨by simpa using h1, h2, by omega, by omega, h.2.symm, h.1.symm⟩
  · rintro ⟨h1, h2, h3, h4, rfl, rfl⟩
    rw [if_neg (by simpa using h1), if_neg h2, if_neg (by omega), if_neg (by omega)]

/-- Success characterization of createElectionWithMerkle. -/
theorem create_election_with_merkle_ok_iff (caller : Address) (now : Nat)
    (s : ContractState) (name : Bytes) (st en : Nat) (root : Bytes)
    (cands : List Bytes) (s1 : ContractState) (eid : Nat) :
    create_election_with_merkle caller now s name st en root cands = Except.ok (s1, eid) ↔
      caller = s.organizer ∧ name ≠ [] ∧ st < en ∧ root.length = 32 ∧ now ≤ st ∧
      eid = s.last_election_id + 1 ∧
      s1 = { s with
        last_election_id := s.last_election_id + 1,
        candidates := fupd s.candidates (s.last_election_id + 1)
          (cands.foldl (fun acc c => insertSet c acc) (s.candidates (s.last_election_id + 1))),
        election_info := fupd s.election_info (s.last_election_id + 1) (some {
          id := s.last_election_id + 1, name := name, start_time := st,
          end_time := en, is_finalized := false, candidates := cands,
          merkle_root := some root, encryption_public_key := none }) } := by
  unfold create_election_with_merkle
  constructor
  · intro h
    split_ifs at h with h1 h2 h3 h4 h5
    simp at h
    exact ⟨by simpa using h1, h2, by omega, by simpa using h4, by omega, h.2.symm, h.1.symm⟩
  · rintro ⟨h1, h2, h3, h4, h5, rfl, rfl⟩
    rw [if_neg (by simpa using h1), if_neg h2, if_neg (by omega), if_neg (by simp [h4]),
      if_neg (by omega)]

/-- Success characterization of setEncryptionPublicKey. -/
theorem set_encryption_public_key_ok_iff (caller : Address) (s : ContractState)
    (id : Nat) (pk : Bytes) (s1 : ContractState) :
    set_encryption_public_key caller s id pk = Except.ok s1 ↔
      caller = s.organizer ∧ ∃ info, s.election_info id = some info ∧
        info.is_finalized = false ∧
        s1 = { s with
          election_info := fupd s.election_info id
            (some { info with encryption_public_key := some pk }) } := by
  unfold set_encryption_public_key
  by_cases horg : caller = s.organizer
  case neg => simp [horg]
  rw [if_neg (by simpa using horg)]
  cases hinfo : s.election_info id with
  | none => simp [horg]
  | some info =>
    simp only [Option.getD_some, reduceCtorEq, if_false]
    constructor
    · intro h
      split_ifs at h with h1
      simp at h
      exact ⟨horg, info, rfl, by simpa using h1, h.symm⟩
    · rintro ⟨-, info', hi, hfin, rfl⟩
      obtain rfl : info = info' := by injection hi
      rw [if_neg (by simp [hfin])]

/-- Success characterization of addVoters. -/
theorem add_voters_ok_iff (caller : Address) (s : ContractState) (id : Nat)
    (voters : List Address) (s1 : ContractState) :
    add_voters caller s id voters = Except.ok s1 ↔
      caller = s.organizer ∧ ∃ info, s.election_info id = some info ∧
        info.is_finalized = false ∧
        s1 = { s with
          eligible_voters := fupd s.eligible_voters id
            (voters.foldl (fun acc v => insertSet v acc) (s.eligible_voters id)) } := by
  unfold add_voters
  by_cases horg : caller = s.organizer
  case neg => simp [horg]
  rw [if_neg (by simpa using horg)]
  cases hinfo : s.election_info id with
  | none => simp [horg]
  | some info =>
    simp only [Option.getD_some, reduceCtorEq, if_false]
    constructor
    · intro h
      split_ifs at h with h1
      simp at h
      exact ⟨horg, info, rfl, by simpa using h1, h.symm⟩
    · rintro ⟨-, info', hi, hfin, rfl⟩
      obtain rfl : info = info' := by injection hi
      rw [if_neg (by simp [hfin])]

/-- Success characterization of endElection: a pure no-op observer. -/
theorem end_election_ok_iff (caller : Address) (now : Nat) (s : ContractState)
    (id : Nat) (s1 : ContractState) :
    end_election caller now s id = Except.ok s1 ↔
      caller = s.organizer ∧ ∃ info, s.election_info id = some info ∧
        info.is_finalized = false ∧ info.end_time < now ∧ s1 = s := by
  unfold end_election
  by_cases horg : caller = s.organizer
  case neg => simp [horg]
  rw [if_neg (by simpa using horg)]
  cases hinfo : s.election_info id with
  | none => simp [horg]
  | some info =>
    simp only [Option.getD_some, reduceCtorEq, if_false]
    constructor
    · intro h
      split_ifs at h with h1 h2
      simp at h
      exact ⟨horg, info, rfl, by simpa using h1, by omega, h.symm⟩
    · rintro ⟨-, info', hi, hfin, hen, rfl⟩
      obtain rfl : info = info' := by injection hi
      rw [if_neg (by simp [hfin]), if_neg (by omega)]

/-- Success characterization of forceEndElection. -/
theorem force_end_election_ok_iff (caller : Address) (now : Nat)
    (s : ContractState) (id : Nat) (s1 : ContractState) :
    force_end_election caller now s id = Except.ok s1 ↔
      caller = s.organizer ∧ ∃ info, s.election_info id = some info ∧
        info.is_finalized = false ∧ now ≤ info.end_time ∧
        s1 = { s with
          election_info := fupd s.election_info id
            (some { info with end_time := now - 1 }) } := by
  unfold force_end_election
  by_cases horg : caller = s.organizer
  case neg => simp [horg]
  rw [if_neg (by simpa using horg)]
  cases hinfo : s.election_info id with
  | none => simp [horg]
  | some info =>
    simp only [Option.getD_some, reduceCtorEq, if_false]
    constructor
    · intro h
      split_ifs at h with h1 h2
      simp at h
      exact ⟨horg, info, rfl, by simpa using h1, by omega, h.symm⟩
    · rintro ⟨-, info', hi, hfin, hen, rfl⟩
      obtain rfl : info = info' := by injection hi
      rw [if_neg (by simp [hfin]), if_neg (by omega)]

/-- Success characterization of publishResults. -/
theorem publish_results_ok_iff (caller : Address) (now : Nat)
    (s : ContractState) (id : Nat) (pairs : List (Bytes × Nat))
    (s1 : ContractState) :
    publish_results caller now s id pairs = Except.ok s1 ↔
      caller = s.organizer ∧ ∃ info, s.election_info id = some info ∧
        info.is_finalized = false ∧ info.end_time < now ∧
        s1 = { s with
          final_candidates := fupd s.final_candidates id (pairs.map Prod.fst),
          final_counts := fupd s.final_counts id (pairs.map Prod.snd),
          election_info := fupd s.election_info id
            (some { info with is_finalized := true }) } := by
  unfold publish_results
  by_cases horg : caller = s.organizer
  case neg => simp [horg]
  rw [if_neg (by simpa using horg)]
  cases hinfo : s.election_info id with
  | none => simp [horg]
  | some info =>
    simp only [Option.getD_some, reduceCtorEq, if_false]
    constructor
    · intro h
      split_ifs at h with h1 h2
      simp at h
      exact ⟨horg, info, rfl, by simpa using h1, by omega, h.symm⟩
    · rintro ⟨-, info', hi, hfin, hen, rfl⟩
      obtain rfl : info = info' := by injection hi
      rw [if_neg (by simp [hfin]), if_neg (by omega)]

/-- A result that is not a success is some error. -/
theorem exists_error_of_not_ok {α : Type} {x : Except String α}
    (h : ∀ a, x ≠ Except.ok a) : ∃ e, x = Except.error e := by
  cases x with
  | error e => exact ⟨e, rfl⟩
  | ok a => exact absurd rfl (h a)

/-- Success inversion through Except.map. -/
theorem except_map_ok_iff {α β : Type} (f : α → β) (x : Except String α) (y : β) :
    x.map f = Except.ok y ↔ ∃ a, x = Except.ok a ∧ f a = y := by
  cases x <;> simp [Except.map]

/-- An id holding a record is within the allocated range. -/
theorem le_last_of_some (s : ContractState) (hf : freshIds s) (tid : Nat)
    (info : ElectionInfo) (h : s.election_info tid = some info) :
    tid ≤ s.last_election_id := by
  by_contra hc
  push_neg at hc
  rw [hf tid hc] at h
  exact Option.noConfusion h

/-- Rewriting an allocated id keeps ids above the counter empty. -/
theorem freshIds_of_fupd (s : ContractState) (hf : freshIds s) (tid : Nat)
    (v : Option ElectionInfo) (htid : tid ≤ s.last_election_id) :
    ∀ j, s.last_election_id < j → fupd s.election_info tid v j = none := by
  intro j hj
  unfold fupd
  rw [if_neg (by omega)]
  exact hf j hj

/-- Every successful operation preserves the fresh-ids invariant and, on
every existing election record, preserves merkle_root, never clears
is_finalized, and sets is_finalized only when the operation is
publishResults on that election. -/
theorem stepOp_preserve (keccak : Bytes → Bytes) (caller : Address) (now : Nat)
    (s : ContractState) (op : Op) (s1 : ContractState)
    (hf : freshIds s) (hok : stepOp keccak caller now s op = Except.ok s1) :
    freshIds s1 ∧
    ∀ id info, s.election_info id = some info →
      ∃ info', s1.election_info id = some info' ∧
        info'.merkle_root = info.merkle_root ∧
        (info.is_finalized = true → info'.is_finalized = true) ∧
        (info'.is_finalized = true → info.is_finalized = true ∨
          ∃ pairs, op = Op.publishResults id pairs) := by
  cases op with
  | createElection name st en key cands =>
    simp only [stepOp, except_map_ok_iff] at hok
    obtain ⟨⟨sa, eid⟩, ha, hfst⟩ := hok
    rw [create_election_ok_iff] at ha
    obtain ⟨-, -, -, -, -, rfl⟩ := ha
    subst hfst
    constructor
    · intro j hj
      simp only at hj ⊢
      unfold fupd
      rw [if_neg (by omega)]
      exact hf j (by omega)
    · intro id info hi
      have hle := le_last_of_some s hf id info hi
      refine ⟨info, ?_, rfl, fun h => h, fun h => Or.inl h⟩
      simp only [fupd]
      rw [if_neg (by omega)]
      exact hi
  | createElectionWithMerkle name st en root cands =>
    simp only [stepOp, except_map_ok_iff] at hok
    obtain ⟨⟨sa, eid⟩, ha, hfst⟩ := hok
    rw [create_election_with_merkle_ok_iff] at ha
    obtain ⟨-, -, -, -, -, -, rfl⟩ := ha
    subst hfst
    constructor
    · intro j hj
      simp only at hj ⊢
      unfold fupd
      rw [if_neg (by omega)]
      exact hf j (by omega)
    · intro id info hi
      have hle := le_last_of_some s hf id info hi
      refine ⟨info, ?_, rfl, fun h => h, fun h => Or.inl h⟩
      simp only [fupd]
      rw [if_neg (by omega)]
      exact hi
  | setEncryptionPublicKey tid key =>
    simp only [stepOp] at hok
    rw [set_encryption_public_key_ok_iff] at hok
    obtain ⟨-, tinfo, ht, htfin, rfl⟩ := hok
    have htle := le_last_of_some s hf tid tinfo ht
    constructor
    · intro j hj
      simp only at hj ⊢
      exact freshIds_of_fupd s hf tid _ htle j hj
    · intro id info hi
      by_cases hid : id = tid
      · subst hid
        rw [ht] at hi
        obtain rfl : info = tinfo := by injection hi with h; exact h.symm
        refine ⟨{ info with encryption_public_key := some key }, ?_, rfl, fun h => h, fun h => Or.inl h⟩
        simp [fupd]
      · refine ⟨info, ?_, rfl, fun h => h, fun h => Or.inl h⟩
        simp only [fupd]
        rw [if_neg hid]
        exact hi
  | addVoters tid voters =>
    simp only [stepOp] at hok
    rw [add_voters_ok_iff] at hok
    obtain ⟨-, tinfo, ht, htfin, rfl⟩ := hok
    exact ⟨hf, fun id info hi => ⟨info, hi, rfl, fun h => h, fun h => Or.inl h⟩⟩
  | endElection tid =>
    simp only [stepOp] at hok
    rw [end_election_ok_iff] at hok
    obtain ⟨-, tinfo, ht, htfin, hten, rfl⟩ := hok
    exact ⟨hf, fun id info hi => ⟨info, hi, rfl, fun h => h, fun h => Or.inl h⟩⟩
  | forceEndElection tid =>
    simp only [stepOp] at hok
    rw [force_end_election_ok_iff] at hok
    obtain ⟨-, tinfo, ht, htfin, hten, rfl⟩ := hok
    have htle := le_last_of_some s hf tid tinfo ht
    constructor
    · intro j hj
      simp only at hj ⊢
      exact freshIds_of_fupd s hf tid _ htle j hj
    · intro id info hi
      by_cases hid : id = tid
      · subst hid
        rw [ht] at hi
        obtain rfl : info = tinfo := by injection hi with h; exact h.symm
        refine ⟨{ info with end_time := now - 1 }, ?_, rfl, fun h => h, fun h => Or.inl h⟩
        simp [fupd]
      · refine ⟨info, ?_, rfl, fun h => h, fun h => Or.inl h⟩
        simp only [fupd]
        rw [if_neg hid]
        exact hi
  | vote tid ballot =>
    simp only [stepOp] at hok
    rw [vote_ok_iff] at hok
    obtain ⟨tinfo, ht, -, -, -, -, -, -, rfl⟩ := hok
    exact ⟨hf, fun id info hi => ⟨info, hi, rfl, fun h => h, fun h => Or.inl h⟩⟩
  | voteWithMerkle tid nul ballot proof =>
    simp only [stepOp] at hok
    rw [vote_with_merkle_ok_iff] at hok
    obtain ⟨tinfo, root, ht, -, -, -, -, -, -, -, rfl⟩ := hok
    exact ⟨hf, fun id info hi => ⟨info, hi, rfl, fun h => h, fun h => Or.inl h⟩⟩
  | voteEncrypted tid ballot nonce =>
    simp only [stepOp] at hok
    rw [vote_encrypted_ok_iff] at hok
    obtain ⟨tinfo, ht, -, -, -, -, -, rfl⟩ := hok
    exact ⟨hf, fun id info hi => ⟨info, hi, rfl, fun h => h, fun h => Or.inl h⟩⟩
  | publishResults tid pairs =>
    simp only [stepOp] at hok
    rw [publish_results_ok_iff] at hok
    obtain ⟨-, tinfo, ht, htfin, hten, rfl⟩ := hok
    have htle := le_last_of_some s hf tid tinfo ht
    constructor
    · intro j hj
      simp only at hj ⊢
      exact freshIds_of_fupd s hf tid _ htle j hj
    · intro id info hi
      by_cases hid : id = tid
      · subst hid
        rw [ht] at hi
        obtain rfl : info = tinfo := by injection hi with h; exact h.symm
        refine ⟨{ info with is_finalized := true }, ?_, rfl, fun _ => rfl, fun _ => Or.inr ⟨pairs, rfl⟩⟩
        simp [fupd]
      · refine ⟨info, ?_, rfl, fun h => h, fun h => Or.inl h⟩
        simp only [fupd]
        rw [if_neg hid]
        exact hi

/-- Multi-step preservation: any sequence of calls (each with its own
caller and timestamp, failures reverting) preserves freshness and, on every
existing record, the merkle_root. -/
theorem runCalls_preserve (keccak : Bytes → Bytes) (calls : List (Address × Nat × Op))
    (s : ContractState) (hf : freshIds s) :
    freshIds (runCalls keccak s calls) ∧
    ∀ id info, s.election_info id = some info →
      ∃ info', (runCalls keccak s calls).election_info id = some info' ∧
        info'.merkle_root = info.merkle_root := by
  induction calls generalizing s with
  | nil => exact ⟨hf, fun id info hi => ⟨info, hi, rfl⟩⟩
  | cons call rest ih =>
    obtain ⟨c, t, op⟩ := call
    show freshIds (runCalls keccak _ rest) ∧ _
    cases hstep : stepOp keccak c t s op with
    | error e =>
      simp only [runCalls, hstep]
      exact ih s hf
    | ok s1 =>
      simp only [runCalls, hstep]
      obtain ⟨hf1, hpres⟩ := stepOp_preserve keccak c t s op s1 hf hstep
      refine ⟨(ih s1 hf1).1, fun id info hi => ?_⟩
      obtain ⟨info1, hi1, hroot1, -, -⟩ := hpres id info hi
      obtain ⟨info2, hi2, hroot2⟩ := (ih s1 hf1).2 id info1 hi1
      exact ⟨info2, hi2, hroot2.trans hroot1⟩

/-- A repeated direct voter is rejected with the replay error when the
earlier guards hold. -/
theorem vote_already_voted_err (caller : Address) (now : Nat) (s : ContractState)
    (id : Nat) (b : Bytes) (info : ElectionInfo)
    (hinfo : s.election_info id = some info)
    (hst : info.start_time ≤ now) (hen : now ≤ info.end_time)
    (hfin : info.is_finalized = false) (hkey : info.encryption_public_key ≠ none)
    (helig : caller ∈ s.eligible_voters id) (hvoted : caller ∈ s.has_voted id) :
    vote caller now s id b = Except.error "Already voted" := by
  unfold vote
  rw [if_neg (by simp [hinfo])]
  simp only [hinfo, Option.getD_some]
  rw [if_neg (by omega), if_neg (by omega), if_neg (by simp [hfin]), if_neg hkey,
    if_neg (by simpa using helig), if_pos hvoted]

/-- A spent nullifier is rejected with the replay error when the earlier
guards hold. -/
theorem merkle_already_voted_err (keccak : Bytes → Bytes) (caller : Address)
    (now : Nat) (s : ContractState) (id : Nat) (nul b : Bytes)
    (proof : List Bytes) (info : ElectionInfo)
    (hinfo : s.election_info id = some info)
    (hst : info.start_time ≤ now) (hen : now ≤ info.end_time)
    (hfin : info.is_finalized = false) (hkey : info.encryption_public_key ≠ none)
    (hroot : info.merkle_root ≠ none) (hnul : nul ∈ s.used_nullifiers id) :
    vote_with_merkle keccak caller now s id nul b proof = Except.error "Already voted" := by
  unfold vote_with_merkle
  rw [if_neg (by simp [hinfo])]
  simp only [hinfo, Option.getD_some]
  rw [if_neg (by omega), if_neg (by omega), if_neg (by simp [hfin]), if_neg hkey,
    if_neg hroot, if_pos hnul]

/-- A spent nonce is rejected with the replay error when the earlier guards
hold. -/
theorem enc_nonce_used_err (caller : Address) (now : Nat) (s : ContractState)
    (id : Nat) (b : Bytes) (nonce : Nat) (info : ElectionInfo)
    (hinfo : s.election_info id = some info)
    (hst : info.start_time ≤ now) (hen : now ≤ info.end_time)
    (hfin : info.is_finalized = false) (hkey : info.encryption_public_key ≠ none)
    (hnon : nonce ∈ s.used_nonces id) :
    vote_encrypted caller now s id b nonce =
      Except.error "Nonce already used - replay attack detected" := by
  unfold vote_encrypted
  rw [if_neg (by simp [hinfo])]
  simp only [hinfo, Option.getD_some]
  rw [if_neg (by omega), if_neg (by omega), if_neg (by simp [hfin]), if_neg hkey,
    if_pos hnon]

/-- Claim C1: verifyMerkleProof computes current := leaf, folds
current := keccak256(current ++ sibling) over the proof in order, and
returns true exactly when the final value equals the root; for an empty
proof it returns true iff leaf = root. -/
theorem C1_verify_merkle_fold (keccak : Bytes → Bytes) (leaf root : Bytes)
    (proof : List Bytes) (_hleaf : leaf.length = 32) :
    (verify_merkle_proof_leaf keccak leaf root proof = true ↔
      List.foldl (fun cur sib => keccak (cur ++ sib)) leaf proof = root) ∧
    (verify_merkle_proof_leaf keccak leaf root [] = true ↔ leaf = root) := by
  constructor
  · simp [verify_merkle_proof_leaf, merkleFold_eq_foldl]
  · simp [verify_merkle_proof_leaf, merkleFold]

/-- Witness for C1 at a concrete 32-byte leaf. -/
theorem C1_verify_merkle_fold_witness :
    (List.replicate 32 0).length = 32 ∧
    ((verify_merkle_proof_leaf kId (List.replicate 32 0) [5] [[1]] = true ↔
      List.foldl (fun cur sib => kId (cur ++ sib)) (List.replicate 32 0) [[1]] = [5]) ∧
     (verify_merkle_proof_leaf kId (List.replicate 32 0) [5] [] = true ↔
      List.replicate 32 0 = [5])) :=
  ⟨by decide, C1_verify_merkle_fold kId (List.replicate 32 0) [5] [[1]] (by decide)⟩

/-- Claim C8: verifying a root obtained by folding the leaf through the
siblings with the left-to-right hash-combine always returns true. -/
theorem C8_merkle_round_trip (keccak : Bytes → Bytes) (leaf : Bytes)
    (proof : List Bytes) :
    verify_merkle_proof_leaf keccak leaf
      (List.foldl (fun cur sib => keccak (cur ++ sib)) leaf proof) proof = true := by
  simp [verify_merkle_proof_leaf, merkleFold_eq_foldl]

/-- Claim C2 counterexample: in allow-list mode all admission conditions of
the claim hold (open window, not finalized, eligible, has not voted, no
merkle root so plaintext mode), yet vote is rejected because the election
has no encryption key - the code has no plaintext path that skips the key
requirement. -/
theorem C2_cex :
    (∃ info, sNoKey.election_info 1 = some info ∧
      info.start_time ≤ 15 ∧ 15 ≤ info.end_time ∧ info.is_finalized = false ∧
      info.merkle_root = none ∧ info.encryption_public_key = none) ∧
    v1 ∈ sNoKey.eligible_voters 1 ∧ v1 ∉ sNoKey.has_voted 1 ∧
    vote v1 15 sNoKey 1 [7] = Except.error "Election encryption keys not set" := by
  exact ⟨⟨_, rfl, by decide, by decide, rfl, rfl, rfl⟩, by decide, by decide, rfl⟩

/-- Claim C2 (amended): an allow-list vote during the open window on a
non-finalized election by an eligible caller who has not voted succeeds iff
the election additionally has an encryption key set; on success it appends
the ballot to the encrypted-ballot bag and records the caller, and never
touches the per-candidate counters; with no key set it always fails with
the key error even when every other admission condition holds. -/
theorem C2_vote_requires_key (caller : Address) (now : Nat) (s : ContractState)
    (id : Nat) (ballot : Bytes) :
    (∀ s1, vote caller now s id ballot = Except.ok s1 →
      (∃ info, s.election_info id = some info ∧ info.start_time ≤ now ∧
        now ≤ info.end_time ∧ info.is_finalized = false ∧
        info.encryption_public_key ≠ none ∧
        caller ∈ s.eligible_voters id ∧ caller ∉ s.has_voted id) ∧
      s1.encrypted_votes id = insertSet ballot (s.encrypted_votes id) ∧
      s1.has_voted id = insertSet caller (s.has_voted id) ∧
      s1.vote_counts = s.vote_counts) ∧
    (∀ info, s.election_info id = some info → info.start_time ≤ now →
      now ≤ info.end_time → info.is_finalized = false →
      info.encryption_public_key ≠ none → caller ∈ s.eligible_voters id →
      caller ∉ s.has_voted id →
      ∃ s1, vote caller now s id ballot = Except.ok s1) ∧
    (∀ info, s.election_info id = some info → info.start_time ≤ now →
      now ≤ info.end_time → info.is_finalized = false →
      info.encryption_public_key = none →
      vote caller now s id ballot = Except.error "Election encryption keys not set") := by
  refine ⟨?_, ?_, ?_⟩
  · intro s1 hok
    rw [vote_ok_iff] at hok
    obtain ⟨info, hinfo, hst, hen, hfin, hkey, helig, hnv, rfl⟩ := hok
    exact ⟨⟨info, hinfo, hst, hen, hfin, hkey, helig, hnv⟩, by simp [fupd], by simp [fupd], rfl⟩
  · intro info hinfo hst hen hfin hkey helig hnv
    exact ⟨_, (vote_ok_iff caller now s id ballot _).mpr
      ⟨info, hinfo, hst, hen, hfin, hkey, helig, hnv, rfl⟩⟩
  · intro info hinfo hst hen hfin hkeynone
    unfold vote
    rw [if_neg (by simp [hinfo])]
    simp only [hinfo, Option.getD_some]
    rw [if_neg (by omega), if_neg (by omega), if_neg (by simp [hfin]), if_pos hkeynone]

/-- Witness for C2 (amended): a successful keyed vote and the key-missing
rejection at concrete states. -/
theorem C2_vote_requires_key_witness :
    (∃ s1, vote v1 15 sKeyed 1 [7] = Except.ok s1) ∧
    vote v1 15 sNoKey 1 [7] = Except.error "Election encryption keys not set" :=
  ⟨(C2_vote_requires_key v1 15 sKeyed 1 [7]).2.1 infoKeyed rfl (by decide) (by decide)
      rfl (by decide) (by decide) (by decide),
   (C2_vote_requires_key v1 15 sNoKey 1 [7]).2.2 _ rfl (by decide) (by decide) rfl rfl⟩

/-- Claim C3 counterexample: two successful votes carrying byte-identical
ciphertexts leave a single entry in the ballot bag (encryptedVotes is a
SetMapper, not a multiset). -/
theorem C3_cex : ∃ s1 s2,
    vote v1 15 sKeyed 1 [7] = Except.ok s1 ∧
    vote v2 15 s1 1 [7] = Except.ok s2 ∧
    (s2.encrypted_votes 1).length = 1 := by
  exact ⟨_, _, rfl, rfl, rfl⟩

/-- Claim C3 (amended): the ballot bag behaves as an append-only set: each
successful vote, voteWithMerkle, or voteEncrypted call inserts the ballot,
adding exactly one entry when the ciphertext is new and leaving the bag
unchanged when a byte-identical ciphertext is already stored. -/
theorem C3_ballot_bag_set (caller : Address) (now : Nat) (s : ContractState)
    (id : Nat) (ballot : Bytes) :
    (∀ s1, vote caller now s id ballot = Except.ok s1 →
      s1.encrypted_votes id = insertSet ballot (s.encrypted_votes id)) ∧
    (∀ keccak nul proof s1,
      vote_with_merkle keccak caller now s id nul ballot proof = Except.ok s1 →
      s1.encrypted_votes id = insertSet ballot (s.encrypted_votes id)) ∧
    (∀ nonce s1, vote_encrypted caller now s id ballot nonce = Except.ok s1 →
      s1.encrypted_votes id = insertSet ballot (s.encrypted_votes id)) ∧
    (ballot ∉ s.encrypted_votes id →
      (insertSet ballot (s.encrypted_votes id)).length =
        (s.encrypted_votes id).length + 1) ∧
    (ballot ∈ s.encrypted_votes id →
      insertSet ballot (s.encrypted_votes id) = s.encrypted_votes id) := by
  refine ⟨?_, ?_, ?_, insertSet_length_of_not_mem, insertSet_of_mem⟩
  · intro s1 hok
    rw [vote_ok_iff] at hok
    obtain ⟨info, -, -, -, -, -, -, -, rfl⟩ := hok
    simp [fupd]
  · intro keccak nul proof s1 hok
    rw [vote_with_merkle_ok_iff] at hok
    obtain ⟨info, root, -, -, -, -, -, -, -, -, rfl⟩ := hok
    simp [fupd]
  · intro nonce s1 hok
    rw [vote_encrypted_ok_iff] at hok
    obtain ⟨info, -, -, -, -, -, -, rfl⟩ := hok
    simp [fupd]

/-- Witness for C3 (amended): the effect of a concrete successful vote and
the two dedup consequences. -/
theorem C3_ballot_bag_set_witness : ∃ s1,
    vote v1 15 sKeyed 1 [7] = Except.ok s1 ∧
    s1.encrypted_votes 1 = insertSet [7] (sKeyed.encrypted_votes 1) ∧
    (insertSet [7] (sKeyed.encrypted_votes 1)).length =
      (sKeyed.encrypted_votes 1).length + 1 :=
  ⟨_, rfl, (C3_ballot_bag_set v1 15 sKeyed 1 [7]).1 _ rfl,
    (C3_ballot_bag_set v1 15 sKeyed 1 [7]).2.2.2.1 (by decide)⟩

/-- Claim C4 counterexample: forceEndElection at timestamp 0 succeeds but
end_time saturates to 0 (not "now - 1" in the mathematical sense), so at
the same timestamp the election is still treated as open: a vote still
succeeds and publishResults still fails its timing guard. -/
theorem C4_cex : ∃ s1 s2,
    force_end_election org0 0 sC4 1 = Except.ok s1 ∧
    (∃ info, s1.election_info 1 = some info ∧ info.end_time = 0) ∧
    vote v1 0 s1 1 [7] = Except.ok s2 ∧
    publish_results org0 0 s1 1 [] = Except.error "Election still ongoing" := by
  exact ⟨_, _, rfl, ⟨_, rfl, rfl⟩, rfl, rfl⟩

/-- Claim C4 (amended): an organizer forceEndElection on an existing,
non-finalized election with now ≤ end_time succeeds and rewrites end_time
to now - 1 saturating at 0; whenever now ≥ 1 every time-gated check at the
same timestamp then treats the election as closed (voting's now ≤ end_time
fails, publishResults' now > end_time holds). -/
theorem C4_force_end (caller : Address) (now : Nat) (s : ContractState)
    (id : Nat) (info : ElectionInfo)
    (horg : caller = s.organizer) (hinfo : s.election_info id = some info)
    (hfin : info.is_finalized = false) (hen : now ≤ info.end_time) :
    ∃ s1, force_end_election caller now s id = Except.ok s1 ∧
      ∃ info1, s1.election_info id = some info1 ∧ info1.end_time = now - 1 ∧
        (1 ≤ now → ¬ now ≤ info1.end_time ∧ now > info1.end_time) := by
  refine ⟨_, (force_end_election_ok_iff caller now s id _).mpr
    ⟨horg, info, hinfo, hfin, hen, rfl⟩, ?_⟩
  exact ⟨{ info with end_time := now - 1 }, by simp [fupd], rfl,
    fun h1 => ⟨by simp only []; omega, by simp only []; omega⟩⟩

/-- Witness for C4 (amended) at timestamp 15 on the keyed election. -/
theorem C4_force_end_witness : ∃ s1,
    force_end_election org0 15 sKeyed 1 = Except.ok s1 ∧
    ∃ info1, s1.election_info 1 = some info1 ∧ info1.end_time = 15 - 1 ∧
      (1 ≤ 15 → ¬ 15 ≤ info1.end_time ∧ 15 > info1.end_time) :=
  C4_force_end org0 15 sKeyed 1 infoKeyed rfl rfl rfl (by decide)

/-- Claim C5: after a successful vote / voteWithMerkle / voteEncrypted the
respective replay set stays duplicate-free, and a second call to the same
endpoint with the same caller identity / nullifier / nonce always fails; it
fails with the corresponding replay error whenever the guards that precede
the replay check pass. -/
theorem C5_replay_protection (keccak : Bytes → Bytes) (now : Nat)
    (s : ContractState) (id : Nat) :
    (∀ caller b s1, (s.has_voted id).Nodup →
      vote caller now s id b = Except.ok s1 →
      (s1.has_voted id).Nodup ∧
      (∀ now2 b2, ∃ e, vote caller now2 s1 id b2 = Except.error e) ∧
      (∀ now2 b2 info, s1.election_info id = some info → info.start_time ≤ now2 →
        now2 ≤ info.end_time → info.is_finalized = false →
        info.encryption_public_key ≠ none → caller ∈ s1.eligible_voters id →
        vote caller now2 s1 id b2 = Except.error "Already voted")) ∧
    (∀ caller nul b proof s1, (s.used_nullifiers id).Nodup →
      vote_with_merkle keccak caller now s id nul b proof = Except.ok s1 →
      (s1.used_nullifiers id).Nodup ∧
      (∀ caller2 now2 b2 proof2, ∃ e,
        vote_with_merkle keccak caller2 now2 s1 id nul b2 proof2 = Except.error e) ∧
      (∀ caller2 now2 b2 proof2 info, s1.election_info id = some info →
        info.start_time ≤ now2 → now2 ≤ info.end_time → info.is_finalized = false →
        info.encryption_public_key ≠ none → info.merkle_root ≠ none →
        vote_with_merkle keccak caller2 now2 s1 id nul b2 proof2 =
          Except.error "Already voted")) ∧
    (∀ caller b nonce s1, (s.used_nonces id).Nodup →
      vote_encrypted caller now s id b nonce = Except.ok s1 →
      (s1.used_nonces id).Nodup ∧
      (∀ caller2 now2 b2, ∃ e,
        vote_encrypted caller2 now2 s1 id b2 nonce = Except.error e) ∧
      (∀ caller2 now2 b2 info, s1.election_info id = some info →
        info.start_time ≤ now2 → now2 ≤ info.end_time → info.is_finalized = false →
        info.encryption_public_key ≠ none →
        vote_encrypted caller2 now2 s1 id b2 nonce =
          Except.error "Nonce already used - replay attack detected")) := by
  refine ⟨?_, ?_, ?_⟩
  · intro caller b s1 hnd hok
    rw [vote_ok_iff] at hok
    obtain ⟨info, hinfo, hst, hen, hfin, hkey, helig, hnv, rfl⟩ := hok
    have hmem : caller ∈ insertSet caller (s.has_voted id) := insertSet_mem_self caller _
    refine ⟨by simpa [fupd] using insertSet_nodup caller hnd, ?_, ?_⟩
    · intro now2 b2
      apply exists_error_of_not_ok
      intro a ha
      rw [vote_ok_iff] at ha
      obtain ⟨info2, -, -, -, -, -, -, hnv2, -⟩ := ha
      exact hnv2 (by simpa [fupd] using hmem)
    · intro now2 b2 info2 hinfo2 hst2 hen2 hfin2 hkey2 helig2
      exact vote_already_voted_err caller now2 _ id b2 info2 hinfo2 hst2 hen2 hfin2
        hkey2 helig2 (by simpa [fupd] using hmem)
  · intro caller nul b proof s1 hnd hok
    rw [vote_with_merkle_ok_iff] at hok
    obtain ⟨info, root, hinfo, hst, hen, hfin, hkey, hroot, hnul, hver, rfl⟩ := hok
    have hmem : nul ∈ insertSet nul (s.used_nullifiers id) := insertSet_mem_self nul _
    refine ⟨by simpa [fupd] using insertSet_nodup nul hnd, ?_, ?_⟩
    · intro caller2 now2 b2 proof2
      apply exists_error_of_not_ok
      intro a ha
      rw [vote_with_merkle_ok_iff] at ha
      obtain ⟨info2, root2, -, -, -, -, -, -, hnul2, -, -⟩ := ha
      exact hnul2 (by simpa [fupd] using hmem)
    · intro caller2 now2 b2 proof2 info2 hinfo2 hst2 hen2 hfin2 hkey2 hroot2
      exact merkle_already_voted_err keccak caller2 now2 _ id nul b2 proof2 info2
        hinfo2 hst2 hen2 hfin2 hkey2 hroot2 (by simpa [fupd] using hmem)
  · intro caller b nonce s1 hnd hok
    rw [vote_encrypted_ok_iff] at hok
    obtain ⟨info, hinfo, hst, hen, hfin, hkey, hnon, rfl⟩ := hok
    have hmem : nonce ∈ insertSet nonce (s.used_nonces id) := insertSet_mem_self nonce _
    refine ⟨by simpa [fupd] using insertSet_nodup nonce hnd, ?_, ?_⟩
    · intro caller2 now2 b2
      apply exists_error_of_not_ok
      intro a ha
      rw [vote_encrypted_ok_iff] at ha
      obtain ⟨info2, -, -, -, -, -, hnon2, -⟩ := ha
      exact hnon2 (by simpa [fupd] using hmem)
    · intro caller2 now2 b2 info2 hinfo2 hst2 hen2 hfin2 hkey2
      exact enc_nonce_used_err caller2 now2 _ id b2 nonce info2 hinfo2 hst2 hen2
        hfin2 hkey2 (by simpa [fupd] using hmem)

/-- Witness for C5: concrete replays on all three endpoints. -/
theorem C5_replay_protection_witness :
    (∃ s1, vote v1 15 sKeyed 1 [7] = Except.ok s1 ∧ (s1.has_voted 1).Nodup ∧
      (∃ e, vote v1 16 s1 1 [8] = Except.error e) ∧
      vote v1 16 s1 1 [8] = Except.error "Already voted") ∧
    (∃ s1, vote_with_merkle kId v1 15 sMerkle 1 [3] [7] [] = Except.ok s1 ∧
      (s1.used_nullifiers 1).Nodup ∧
      (∃ e, vote_with_merkle kId v2 16 s1 1 [3] [8] [] = Except.error e) ∧
      vote_with_merkle kId v2 16 s1 1 [3] [8] [] = Except.error "Already voted") ∧
    (∃ s1, vote_encrypted v1 15 sKeyed 1 [7] 42 = Except.ok s1 ∧
      (s1.used_nonces 1).Nodup ∧
      (∃ e, vote_encrypted v2 16 s1 1 [8] 42 = Except.error e) ∧
      vote_encrypted v2 16 s1 1 [8] 42 =
        Except.error "Nonce already used - replay attack detected") := by
  refine ⟨?_, ?_, ?_⟩
  · have h := (C5_replay_protection kId 15 sKeyed 1).1 v1 [7] _ (by decide) rfl
    exact ⟨_, rfl, h.1, h.2.1 16 [8],
      h.2.2 16 [8] infoKeyed rfl (by decide) (by decide) rfl (by decide) (by decide)⟩
  · have h := (C5_replay_protection kId 15 sMerkle 1).2.1 v1 [3] [7] [] _ (by decide) rfl
    exact ⟨_, rfl, h.1, h.2.1 v2 16 [8] [],
      h.2.2 v2 16 [8] [] _ rfl (by decide) (by decide) rfl (by decide) (by decide)⟩
  · have h := (C5_replay_protection kId 15 sKeyed 1).2.2 v1 [7] 42 _ (by decide) rfl
    exact ⟨_, rfl, h.1, h.2.1 v2 16 [8],
      h.2.2 v2 16 [8] infoKeyed rfl (by decide) (by decide) rfl (by decide)⟩

/-- Claim C6: on every successful operation, is_finalized never goes from
true to false on any existing election, it goes from false to true only
under publishResults on that election, and a successful publishResults
requires is_finalized to have been false beforehand. -/
theorem C6_finalized_monotone (keccak : Bytes → Bytes) (caller : Address)
    (now : Nat) (s : ContractState) (op : Op) (s1 : ContractState)
    (hf : freshIds s) (hok : stepOp keccak caller now s op = Except.ok s1) :
    (∀ id info info', s.election_info id = some info →
      s1.election_info id = some info' →
      (info.is_finalized = true → info'.is_finalized = true) ∧
      (info.is_finalized = false → info'.is_finalized = true →
        ∃ pairs, op = Op.publishResults id pairs)) ∧
    (∀ id pairs, op = Op.publishResults id pairs →
      ∀ info, s.election_info id = some info → info.is_finalized = false) := by
  constructor
  · intro id info info' hi hi'
    obtain ⟨-, hpres⟩ := stepOp_preserve keccak caller now s op s1 hf hok
    obtain ⟨info'', hi'', -, hmono, hflip⟩ := hpres id info hi
    rw [hi''] at hi'
    obtain rfl : info'' = info' := by injection hi'
    refine ⟨hmono, fun hfalse htrue => (hflip htrue).resolve_left (by simp [hfalse])⟩
  · intro id pairs hop info hi
    subst hop
    simp only [stepOp] at hok
    rw [publish_results_ok_iff] at hok
    obtain ⟨-, info2, hi2, hfin2, -, -⟩ := hok
    rw [hi] at hi2
    obtain rfl : info = info2 := by injection hi2
    exact hfin2

/-- Witness for C6: a concrete publishResults flip at timestamp 25. -/
theorem C6_finalized_monotone_witness : ∃ s1,
    stepOp kId org0 25 sKeyed (Op.publishResults 1 [([65], 1), ([66], 0)]) =
      Except.ok s1 ∧
    s1.election_info 1 = some { infoKeyed with is_finalized := true } ∧
    (∃ pairs, Op.publishResults 1 [([65], 1), ([66], 0)] = Op.publishResults 1 pairs) ∧
    infoKeyed.is_finalized = false := by
  have hfresh : freshIds sKeyed := by
    intro j hj
    have hj1 : 1 < j := hj
    show fupd (fun _ => none) 1 (some infoKeyed) j = none
    unfold fupd
    rw [if_neg (by omega)]
  have h := C6_finalized_monotone kId org0 25 sKeyed
    (Op.publishResults 1 [([65], 1), ([66], 0)]) _ hfresh rfl
  refine ⟨_, rfl, rfl, ?_, ?_⟩
  · exact (h.1 1 infoKeyed { infoKeyed with is_finalized := true } rfl rfl).2 rfl rfl
  · exact h.2 1 [([65], 1), ([66], 0)] rfl infoKeyed rfl

/-- Claim C7: a creation call with start_time = end_time or start_time in
the past always fails (so, the transaction reverting, nothing is persisted:
no record, no candidate seeding, no counter bump); when the guards that
precede the timing checks pass (organizer caller, non-empty name, and a
32-byte root for the Merkle variant) it fails with the corresponding
timing error. -/
theorem C7_create_timing (caller : Address) (now : Nat) (s : ContractState)
    (name : Bytes) (st en : Nat) (key : Option Bytes) (root : Bytes)
    (cands : List Bytes) (h : st = en ∨ st < now) :
    (∃ e, create_election caller now s name st en key cands = Except.error e) ∧
    (∃ e, create_election_with_merkle caller now s name st en root cands =
      Except.error e) ∧
    (caller = s.organizer → name ≠ [] →
      (st = en →
        create_election caller now s name st en key cands =
          Except.error "Start time must be before end time" ∧
        create_election_with_merkle caller now s name st en root cands =
          Except.error "Start time must be before end time") ∧
      (st < en → st < now →
        create_election caller now s name st en key cands =
          Except.error "Election start time cannot be in the past" ∧
        (root.length = 32 →
          create_election_with_merkle caller now s name st en root cands =
            Except.error "Election start time cannot be in the past"))) := by
  refine ⟨?_, ?_, ?_⟩
  · apply exists_error_of_not_ok
    rintro ⟨s1, eid⟩ ha
    rw [create_election_ok_iff] at ha
    obtain ⟨-, -, hlt, hpast, -, -⟩ := ha
    omega
  · apply exists_error_of_not_ok
    rintro ⟨s1, eid⟩ ha
    rw [create_election_with_merkle_ok_iff] at ha
    obtain ⟨-, -, hlt, -, hpast, -, -⟩ := ha
    omega
  · intro horg hname
    constructor
    · intro hste
      constructor
      · unfold create_election
        rw [if_neg (by simpa using horg), if_neg hname, if_pos (by omega)]
      · unfold create_election_with_merkle
        rw [if_neg (by simpa using horg), if_neg hname, if_pos (by omega)]
    · intro hlt hpast
      constructor
      · unfold create_election
        rw [if_neg (by simpa using horg), if_neg hname, if_neg (by omega),
          if_pos (by omega)]
      · intro hroot
        unfold create_election_with_merkle
        rw [if_neg (by simpa using horg), if_neg hname, if_neg (by omega),
          if_neg (by simp [hroot]), if_pos (by omega)]

/-- Witness for C7: degenerate window and past start at concrete inputs. -/
theorem C7_create_timing_witness :
    (∃ e, create_election org0 50 emptyState [110] 10 10 none [] = Except.error e) ∧
    create_election org0 50 emptyState [110] 10 10 none [] =
      Except.error "Start time must be before end time" ∧
    create_election org0 50 emptyState [110] 10 20 none [] =
      Except.error "Election start time cannot be in the past" ∧
    create_election_with_merkle org0 50 emptyState [110] 10 20 (List.replicate 32 7) [] =
      Except.error "Election start time cannot be in the past" := by
  have h1 := C7_create_timing org0 50 emptyState [110] 10 10 none
    (List.replicate 32 7) [] (Or.inl rfl)
  have h2 := C7_create_timing org0 50 emptyState [110] 10 20 none
    (List.replicate 32 7) [] (Or.inr (by decide))
  exact ⟨h1.1, ((h1.2.2 rfl (by decide)).1 rfl).1,
    ((h2.2.2 rfl (by decide)).2 (by decide) (by decide)).1,
    ((h2.2.2 rfl (by decide)).2 (by decide) (by decide)).2 (by decide)⟩

/-- Claim C9: once an election is created with a merkle root, any sequence
of subsequent calls (any endpoints, any callers and timestamps; failures
revert) leaves the stored merkle_root equal to the value supplied at
creation. -/
theorem C9_merkle_root_immutable (keccak : Bytes → Bytes) (caller : Address)
    (now : Nat) (s : ContractState) (name : Bytes) (st en : Nat) (root : Bytes)
    (cands : List Bytes) (s1 : ContractState) (eid : Nat)
    (calls : List (Address × Nat × Op))
    (hf : freshIds s)
    (hc : create_election_with_merkle caller now s name st en root cands =
      Except.ok (s1, eid)) :
    ∃ info', (runCalls keccak s1 calls).election_info eid = some info' ∧
      info'.merkle_root = some root := by
  rw [create_election_with_merkle_ok_iff] at hc
  obtain ⟨-, -, -, -, -, rfl, rfl⟩ := hc
  have hf1 : freshIds ({ s with
      last_election_id := s.last_election_id + 1,
      candidates := fupd s.candidates (s.last_election_id + 1)
        (cands.foldl (fun acc c => insertSet c acc) (s.candidates (s.last_election_id + 1))),
      election_info := fupd s.election_info (s.last_election_id + 1) (some {
        id := s.last_election_id + 1, name := name, start_time := st,
        end_time := en, is_finalized := false, candidates := cands,
        merkle_root := some root, encryption_public_key := none }) }) := by
    intro j hj
    simp only at hj ⊢
    unfold fupd
    rw [if_neg (by omega)]
    exact hf j (by omega)
  obtain ⟨-, hpres⟩ := runCalls_preserve keccak calls _ hf1
  obtain ⟨info', hi', hroot⟩ := hpres (s.last_election_id + 1)
    { id := s.last_election_id + 1, name := name, start_time := st, end_time := en,
      is_finalized := false, candidates := cands, merkle_root := some root,
      encryption_public_key := none } (by simp [fupd])
  exact ⟨info', hi', by rw [hroot]⟩

/-- Witness for C9: create with a 32-byte root, then run a key-rotation
call; the root is unchanged. -/
theorem C9_merkle_root_immutable_witness : ∃ s1 eid,
    create_election_with_merkle org0 5 emptyState [110] 10 20
      (List.replicate 32 7) [] = Except.ok (s1, eid) ∧
    ∃ info', (runCalls kId s1 [(org0, 6, Op.setEncryptionPublicKey 1 [5])]).election_info eid =
      some info' ∧ info'.merkle_root = some (List.replicate 32 7) := by
  refine ⟨_, _, rfl, ?_⟩
  exact C9_merkle_root_immutable kId org0 5 emptyState [110] 10 20
    (List.replicate 32 7) [] _ _ [(org0, 6, Op.setEncryptionPublicKey 1 [5])]
    (fun j hj => rfl) rfl

/-- Claim C10: before finalization getElectionResults returns exactly the
live candidate set with every count 0 - independent of any cast ballots or
voter records - and after finalization it returns the stored final
(candidate, count) pairs. -/
theorem C10_results_gated (s : ContractState) (id : Nat) (info : ElectionInfo)
    (hinfo : s.election_info id = some info) :
    (info.is_finalized = false →
      ∃ l, get_election_results s id = some l ∧
        l.map Prod.fst = s.candidates id ∧ ∀ p ∈ l, p.2 = 0) ∧
    (info.is_finalized = true →
      (s.final_candidates id).length ≤ (s.final_counts id).length →
      get_election_results s id =
        some ((s.final_candidates id).zip (s.final_counts id))) ∧
    (∀ f, get_election_results { s with encrypted_votes := f } id =
      get_election_results s id) ∧
    (∀ g, get_election_results { s with has_voted := g } id =
      get_election_results s id) := by
  refine ⟨?_, ?_, fun f => rfl, fun g => rfl⟩
  · intro hfin
    unfold get_election_results
    rw [if_neg (by simp [hinfo])]
    simp only [hinfo, Option.getD_some]
    rw [if_neg (by simp [hfin])]
    refine ⟨_, rfl, ?_, by simp⟩
    have : (Prod.fst ∘ fun c : Bytes => (c, (0 : Nat))) = fun c => c := rfl
    simp [this]
  · intro hfin hlen
    unfold get_election_results
    rw [if_neg (by simp [hinfo])]
    simp only [hinfo, Option.getD_some]
    rw [if_pos (by simp [hfin]), if_pos hlen]

/-- Witness for C10 at a live and at a finalized state. -/
theorem C10_results_gated_witness :
    (∃ l, get_election_results sKeyed 1 = some l ∧
      l.map Prod.fst = sKeyed.candidates 1 ∧ ∀ p ∈ l, p.2 = 0) ∧
    get_election_results sFinal 1 =
      some ((sFinal.final_candidates 1).zip (sFinal.final_counts 1)) :=
  ⟨(C10_results_gated sKeyed 1 infoKeyed rfl).1 rfl,
   (C10_results_gated sFinal 1 { infoKeyed with is_finalized := true } rfl).2.1 rfl
     (by decide)⟩
